import Mathlib

/-!
Verification development for `thinFilmCalc.cpp`, a console thin-film thickness
calculator backed by a flat-file material library (`films.txt`).

The embedding models:
  * C++ `double` values as exact rationals `ℚ` (file and console input are
    decimal text, so all values in scope are finite decimals; floating-point
    rounding and IEEE special values are idealised away, except that the NaN
    produced by `sqrt` of a negative argument is modelled explicitly as the
    `none` case of an `Option ℝ` result, since NaN propagates through the
    remaining `*` and `/` operations of the thickness formula).
  * `std::ifstream` as an explicit character stream with fail/eof bits,
    mirroring the semantics of `operator>>`, `std::ws` and `std::getline`
    that `loadData` relies on.
  * `ostream << double` (default formatting) as exact shortest decimal
    rendering `renderQ`; for the finite-decimal magnitudes handled by the
    program this coincides with the C++ default 6-significant-digit output.
  * console interaction as explicit parameters holding the values the user
    types, and file-open failures as the `none` case of an `Option String`
    file content.
-/

/-- Characters treated as whitespace by the C++ input streams. -/
def isWs (c : Char) : Bool := c = ' ' || c = '\n' || c = '\t' || c = '\r'

/-- Numeric value of a decimal digit character. -/
def charVal (c : Char) : ℕ := c.toNat - 48

/-- Value of a string of decimal digit characters, most significant first
(the accumulation order of `num_get` digit processing). -/
def digitsToNat (cs : List Char) : ℕ := cs.foldl (fun a c => 10 * a + charVal c) 0

/-- Little-endian base-10 digits, by fuel-guarded recursion so that the kernel
can evaluate it on concrete inputs (`Nat.digits` itself is well-founded and
does not reduce); `natDigits` agrees with `Nat.digits 10` (proved below). -/
def natDigitsAux : ℕ → ℕ → List ℕ
  | 0, _ => []
  | _ + 1, 0 => []
  | fuel + 1, n + 1 => (n + 1) % 10 :: natDigitsAux fuel ((n + 1) / 10)

/-- Little-endian base-10 digits of a natural number. -/
def natDigits (n : ℕ) : List ℕ := natDigitsAux n n

/-- Decimal rendering of a natural number, as `operator<<` prints it. -/
def renderNat (n : ℕ) : List Char :=
  if n = 0 then ['0'] else ((natDigits n).reverse.map Nat.digitChar)

/-- Smallest exponent `k` with `d ∣ 10 ^ k`, when one exists below `d + 1`
(every denominator of the form `2^a * 5^b` has one); `0` otherwise. -/
def decExp (d : ℕ) : ℕ :=
  ((List.range (d + 1)).find? (fun k => 10 ^ k % d == 0)).getD 0

/-- Left-pad a digit string with zeros to width `k`. -/
def padZeros (k : ℕ) (cs : List Char) : List Char :=
  List.replicate (k - cs.length) '0' ++ cs

/-- Decimal rendering of the nonnegative rational `n / d` (`d ≠ 0`,
`d ∣ 10 ^ k` for some `k`): integer part, then a fractional part when the
minimal scaling exponent is positive. -/
def renderPos (n d : ℕ) : List Char :=
  let k := decExp d
  let m := n * 10 ^ k / d
  if k = 0 then renderNat m
  else renderNat (m / 10 ^ k) ++ '.' :: padZeros k (renderNat (m % 10 ^ k))

/-- Model of `ostream << (double)q` with default formatting: exact decimal
text, minus sign first for negative values. -/
def renderQ (q : ℚ) : String :=
  ⟨(if q.num < 0 then ['-'] else []) ++ renderPos q.num.natAbs q.den⟩

/-- Rationals whose reduced denominator divides a power of ten: exactly the
values `renderPos` renders faithfully (every value parsed from decimal text
has this form). -/
def IsDecimal (q : ℚ) : Prop := q.den ∣ 10 ^ q.den

instance (q : ℚ) : Decidable (IsDecimal q) := by
  unfold IsDecimal; infer_instance

/-- Model of `std::ifstream` state: the characters not yet consumed plus the
stream's fail and eof bits (`good()` is the conjunction of their negations;
the `badbit` never arises in this program). -/
structure IStream where
  data : List Char
  failbit : Bool
  eofbit : Bool
deriving DecidableEq

/-- C++ `stream.good()`. -/
def IStream.good (s : IStream) : Bool := !s.failbit && !s.eofbit

/-- Model of `fin >> std::ws`: with the stream already in a fail or eof state
the sentry fails and sets `failbit`; otherwise leading whitespace is
extracted, and reaching the end of the data sets `eofbit`. -/
def IStream.skipWs (s : IStream) : IStream :=
  if s.failbit || s.eofbit then { s with failbit := true }
  else
    let rest := s.data.dropWhile isWs
    if rest.isEmpty then { data := [], failbit := s.failbit, eofbit := true }
    else { s with data := rest }

/-- Model of `std::getline(fin, str)`: fails if the stream is not good;
otherwise reads up to and consuming a newline; reading zero characters at end
of data sets `failbit`, reaching end of data after at least one character
sets only `eofbit`. -/
def IStream.getline (s : IStream) : String × IStream :=
  if s.failbit || s.eofbit then ("", { s with failbit := true })
  else
    let line := s.data.takeWhile (fun c => c ≠ '\n')
    let rest := s.data.drop line.length
    if rest.head? = some '\n' then (⟨line⟩, { s with data := rest.tail })
    else
      if line.isEmpty then ("", { data := [], failbit := true, eofbit := true })
      else (⟨line⟩, { data := [], failbit := s.failbit, eofbit := true })

/-- Model of `fin >> (double&)x`: skip whitespace (sentry), then parse an
optional sign, integer digits and an optional fractional part. A parse with
no digits sets `failbit` (and stores `0`, as C++11 prescribes); consuming the
final character of the data sets `eofbit`. Exponent notation is not modelled:
no value written by this program or its library files uses it. -/
def IStream.readQ (s : IStream) : ℚ × IStream :=
  if s.failbit || s.eofbit then (0, { s with failbit := true })
  else
    let d1 := s.data.dropWhile isWs
    if d1.isEmpty then (0, { data := [], failbit := true, eofbit := true })
    else
      let signFst : Bool × List Char :=
        if d1.head? = some '-' then (true, d1.tail)
        else if d1.head? = some '+' then (false, d1.tail)
        else (false, d1)
      let neg := signFst.1
      let d2 := signFst.2
      let ip := d2.takeWhile Char.isDigit
      let d3 := d2.drop ip.length
      let fpRest : List Char × List Char :=
        if d3.head? = some '.' then
          (d3.tail.takeWhile Char.isDigit, d3.tail.drop (d3.tail.takeWhile Char.isDigit).length)
        else ([], d3)
      let fp := fpRest.1
      let d4 := fpRest.2
      if ip.isEmpty && fp.isEmpty then (0, { s with data := d1, failbit := true })
      else
        let v : ℚ := (digitsToNat (ip ++ fp) : ℚ) / 10 ^ fp.length
        (if neg then -v else v, { data := d4, failbit := false, eofbit := d4.isEmpty })

/-- The `Thin_film` class: a material name plus three `double` fields, in the
member order of the source. -/
structure Thin_film where
  mat : String
  spectralRange : ℚ
  index : ℚ
  numberOfMaxima : ℚ
deriving DecidableEq

/-- The default constructor: `spectralRange = index = numberOfMaxima = 0.0`
and a default-constructed (empty) `mat`. -/
instance : Inhabited Thin_film := ⟨⟨"", 0, 0, 0⟩⟩

/-- `Thin_film::setMat`. -/
def Thin_film.setMat (f : Thin_film) (newMat : String) : Thin_film :=
  { f with mat := newMat }

/-- `Thin_film::setspectralRange`: clamps negative input to `0.0`. -/
def Thin_film.setspectralRange (f : Thin_film) (newSpectralRange : ℚ) : Thin_film :=
  if newSpectralRange < 0 then { f with spectralRange := 0 }
  else { f with spectralRange := newSpectralRange }

/-- `Thin_film::setIndex`: clamps negative input to `0.0`. -/
def Thin_film.setIndex (f : Thin_film) (newIndex : ℚ) : Thin_film :=
  if newIndex < 0 then { f with index := 0 }
  else { f with index := newIndex }

/-- `Thin_film::setnumberOfMaxima`: clamps negative input to `0.0`. -/
def Thin_film.setnumberOfMaxima (f : Thin_film) (newMaxima : ℚ) : Thin_film :=
  if newMaxima < 0 then { f with numberOfMaxima := 0 }
  else { f with numberOfMaxima := newMaxima }

/-- `Thin_film::getThickness`: `(numberOfMaxima * spectralRange) / 2.0 *
sqrt(index * index - 1)`. When `index * index - 1 < 0` the C++ `sqrt` yields
NaN, which propagates through the remaining multiplication and division;
that case is modelled as `none`. -/
noncomputable def Thin_film.getThickness (f : Thin_film) : Option ℝ :=
  if f.index * f.index - 1 < 0 then none
  else some (((f.numberOfMaxima : ℝ) * (f.spectralRange : ℝ)) / 2 *
    Real.sqrt ((f.index : ℝ) * (f.index : ℝ) - 1))

/-- Modelled from the spec's words, for comparison with the code:
`thickness = fringeCount * spectralRange / 2 * sqrt(refractiveIndex^2 - 1)`,
evaluated left to right, undefined (NaN, here `none`) when the square-root
argument is negative. -/
noncomputable def spec_thickness (n d m : ℚ) : Option ℝ :=
  if ((n : ℝ) ^ 2 - 1) < 0 then none
  else some ((m : ℝ) * (d : ℝ) / 2 * Real.sqrt ((n : ℝ) ^ 2 - 1))

/-- `Thin_film::read()` (console): stores the four values the user typed,
with no clamping — `cin >> index` writes straight into the field. -/
def Thin_film.read (f : Thin_film) (m : String) (ix d cnt : ℚ) : Thin_film :=
  { f with mat := m, index := ix, spectralRange := d, numberOfMaxima := cnt }

/-- `Thin_film::read(ifstream&)`: `fin >> ws; getline(fin, mat); fin >> index`.
Only `mat` and `index` are assigned; the transient fields keep their previous
values. -/
def Thin_film.readStream (f : Thin_film) (s : IStream) : Thin_film × IStream :=
  let s1 := s.skipWs
  let ms2 := s1.getline
  let is3 := ms2.2.readQ
  ({ f with mat := ms2.1, index := is3.1 }, is3.2)

/-- `Thin_film::writeFile`: `fout << mat << endl << index << endl`. -/
def Thin_film.writeFile (f : Thin_film) : String :=
  f.mat ++ "\n" ++ renderQ f.index ++ "\n"

/-- The spec's record invariant: all numeric fields nonnegative. -/
def Thin_film.Inv (f : Thin_film) : Prop :=
  0 ≤ f.spectralRange ∧ 0 ≤ f.index ∧ 0 ≤ f.numberOfMaxima

/-- The `while (fin.good()) { film.read(fin); if (fin.good()) push; }` loop of
`loadData`. Fuel-guarded: each iteration that remains good consumes at least
one character, so `data.length + 1` fuel is always enough (proved below). -/
def loadLoop : ℕ → Thin_film → IStream → List Thin_film
  | 0, _, _ => []
  | fuel + 1, film, s =>
    if s.good then
      let fs' := film.readStream s
      if fs'.2.good then fs'.1 :: loadLoop fuel fs'.1 fs'.2 else []
    else []

/-- `loadData` applied to the library file's contents: parse records into the
material list (the single scratch `Thin_film film` starts default-constructed,
so loaded records carry zero transient fields). -/
def loadData (contents : String) : List Thin_film :=
  loadLoop (contents.data.length + 1) default ⟨contents.data, false, false⟩

/-- `loadData` including the file open: `none` models an `ifstream` whose
`fail()` is set right after opening, upon which the program prints a message
and calls `exit(1)`; modelled as an `Except` error carrying the exit status
and the message. -/
def loadFile (contents : Option String) (fileName : String) :
    Except (ℤ × String) (List Thin_film) :=
  match contents with
  | none => .error (1, "File " ++ fileName ++ " failed to open.\n")
  | some s => .ok (loadData s)

/-- `saveData`: truncate and rewrite, writing every record of the list in
order through `Thin_film::writeFile`; the result is the new file content. -/
def saveData : List Thin_film → String
  | [] => ""
  | f :: l => f.writeFile ++ saveData l

/-- `getFilmIndex`: reads a 1-based position and returns `pos - 1`. -/
def getFilmIndex (userPos : ℤ) : ℤ := userPos - 1

/-- The unchecked `materialList[pos]` access performed by `calculateThickness`
(with `pos = getFilmIndex(...)`), as a total function: `none` stands for the
out-of-bounds accesses the C++ code performs without any validation. -/
def getFilm (l : List Thin_film) (userPos : ℤ) : Option Thin_film :=
  let pos := getFilmIndex userPos
  if pos < 0 then none else l[pos.toNat]?

/-- The shifting loop of `deleteFilm`:
`for (unsigned i = pos; i < size - 1; i++) list[i] = list[i+1];`.
Fuel-guarded with `l.length` fuel, which bounds the iteration count. -/
def shiftLoop : ℕ → List Thin_film → ℕ → List Thin_film
  | 0, l, _ => l
  | fuel + 1, l, i =>
    if i + 1 < l.length then shiftLoop fuel (l.set i (l.getD (i + 1) default)) (i + 1)
    else l

/-- `deleteFilm`: shift the entries after `pos` left by one, `pop_back`, then
rewrite the whole library file from the updated list. The C++ `int` position
is converted to `unsigned`; a negative position wraps to a value at least
`2^32 - 2^31`, far beyond any list bound, so the loop body never runs —
modelled by starting the loop at the (unreachable) index `l.length`. On an
empty list `size() - 1` wraps around and `pop_back` has no element to remove:
undefined behaviour, modelled as `none`. -/
def deleteFilm (l : List Thin_film) (userPos : ℤ) : Option (List Thin_film × String) :=
  if l.isEmpty then none
  else
    let pos := getFilmIndex userPos
    let start : ℕ := if pos < 0 then l.length else pos.toNat
    let l' := (shiftLoop l.length l start).dropLast
    some (l', saveData l')

/-- The observable outcome of one `calculateThickness` loop body: the updated
in-memory list, the record the thickness is computed and displayed from, the
full new library-file content when the branch rewrites it, and the record
appended to the measurement log when the user asks for it (the log's
fixed-width line formatting is not modelled; only which record is logged). -/
structure CalcOutcome where
  newList : List Thin_film
  measured : Thin_film
  libraryWrite : Option String
  logAppend : Option Thin_film
deriving DecidableEq

/-- The library branch of `calculateThickness`: copy `materialList[pos]`,
`push_back` the copy onto the list (before the transient fields are set on
the local variable), read spectral range and maxima through the clamping
setters, display, and optionally log. `none` models the out-of-bounds access
on an invalid position. -/
def calcFromLibrary (l : List Thin_film) (userPos : ℤ) (d m : ℚ)
    (saveMeasurement : String) : Option CalcOutcome :=
  (getFilm l userPos).map fun film =>
    let film' := (film.setspectralRange d).setnumberOfMaxima m
    { newList := l ++ [film]
      measured := film'
      libraryWrite := none
      logAppend := if saveMeasurement = "y" then some film' else none }

/-- The arbitrary-film branch of `calculateThickness`: `unknown.read()` (raw,
unclamped), `push_back`, display, optionally `saveData(materialList)` to the
library file, optionally log. -/
def calcArbitrary (l : List Thin_film) (m : String) (ix d cnt : ℚ)
    (saveMatIndex saveMeasurement : String) : CalcOutcome :=
  let unknown := (default : Thin_film).read m ix d cnt
  let l' := l ++ [unknown]
  { newList := l'
    measured := unknown
    libraryWrite := if saveMatIndex = "y" then some (saveData l') else none
    logAppend := if saveMeasurement = "y" then some unknown else none }

/-- The state the interactive session owns: the in-memory list and the two
files. -/
structure SessionState where
  materialList : List Thin_film
  libFile : String
  logFile : String
deriving DecidableEq

/-- `addMaterial`'s effect on the library file: when the user confirms, open
`films.txt` in append mode and write the raw `mat` and `index` the user typed
(the local `index` variable, not the clamped member, is written). -/
def addMaterial (libFile : String) (m : String) (ix : ℚ) (saveMatIndex : String) : String :=
  if saveMatIndex = "y" then libFile ++ m ++ "\n" ++ renderQ ix ++ "\n" else libFile

/-- Menu choice `3` dispatching to `addMaterial()`: the function receives no
reference to `materialList`, so the session's list and log are untouched. -/
def menuAdd (st : SessionState) (m : String) (ix : ℚ) (saveMatIndex : String) : SessionState :=
  { st with libFile := addMaterial st.libFile m ix saveMatIndex }

/-- Shape of one numeric token as `operator>>` accepts it in this program:
optional minus sign, integer digits, optional fractional digits. -/
structure NumTok where
  neg : Bool
  ip : List Char
  fp : Option (List Char)
deriving DecidableEq

/-- The characters of a numeric token. -/
def NumTok.render (t : NumTok) : List Char :=
  (if t.neg then ['-'] else []) ++ t.ip ++ (match t.fp with | none => [] | some f => '.' :: f)

/-- Well-formedness: both digit groups hold digits only and at least one
digit is present. -/
def NumTok.ok (t : NumTok) : Prop :=
  (∀ c ∈ t.ip, c.isDigit = true) ∧ (∀ f, t.fp = some f → ∀ c ∈ f, c.isDigit = true) ∧
    (t.ip ≠ [] ∨ ∃ f, t.fp = some f ∧ f ≠ [])

instance (t : NumTok) : Decidable t.ok := by
  unfold NumTok.ok; infer_instance

/-- The rational value a token denotes (what `operator>> double` stores). -/
def NumTok.val (t : NumTok) : ℚ :=
  let f := t.fp.getD []
  let v : ℚ := (digitsToNat (t.ip ++ f) : ℚ) / 10 ^ f.length
  if t.neg then -v else v

/-- A material name line `loadData` reads back intact: nonempty, no embedded
newline, and not starting with whitespace (leading whitespace would be eaten
by `fin >> ws`). -/
def nameOk (m : String) : Prop :=
  m.data ≠ [] ∧ '\n' ∉ m.data ∧ ∀ c, m.data.head? = some c → isWs c = false

instance (m : String) : Decidable (nameOk m) := by
  unfold nameOk; infer_instance

/-- File bytes of a list of (name line, index token) record pairs, as the
library file stores them: two lines per record. -/
def renderPairs : List (String × NumTok) → List Char
  | [] => []
  | p :: ps => p.1.data ++ '\n' :: (p.2.render ++ '\n' :: renderPairs ps)

/-- All pairs of a parsed file description are well formed. -/
def pairsOk (ps : List (String × NumTok)) : Prop :=
  ∀ p ∈ ps, nameOk p.1 ∧ p.2.ok

instance (ps : List (String × NumTok)) : Decidable (pairsOk ps) := by
  unfold pairsOk; infer_instance

/-- Trailing bytes after the last complete record that `loadData` silently
drops: anything containing no newline except possibly as its final
character — in particular a dangling name line with or without its
newline, trailing whitespace, or nothing. -/
def tailOk (t : List Char) : Prop := '\n' ∉ t.dropLast

instance (t : List Char) : Decidable (tailOk t) := by
  unfold tailOk; infer_instance

/-- The record `loadData` pushes for a parsed (name, value) pair, given the
scratch record's current transient fields. -/
def mkLoaded (film : Thin_film) (m : String) (v : ℚ) : Thin_film :=
  { mat := m, spectralRange := film.spectralRange, index := v,
    numberOfMaxima := film.numberOfMaxima }

/-- The canonical-library predicate: every record has a name `loadData` reads
back intact and a nonnegative finite-decimal index, so `saveData`'s output
reloads exactly. -/
def canonL (l : List Thin_film) : Prop :=
  ∀ f ∈ l, nameOk f.mat ∧ 0 ≤ f.index ∧ IsDecimal f.index

instance (l : List Thin_film) : Decidable (canonL l) := by
  unfold canonL; infer_instance

/-- The token `renderQ` produces for a nonnegative decimal value. -/
def qTok (q : ℚ) : NumTok :=
  let k := decExp q.den
  let m := q.num.natAbs * 10 ^ k / q.den
  if k = 0 then ⟨false, renderNat m, none⟩
  else ⟨false, renderNat (m / 10 ^ k), some (padZeros k (renderNat (m % 10 ^ k)))⟩

/-- The two-record library of the spec's worked scenario. -/
def sio2 : Thin_film := ⟨"SiO2", 0, 1.46, 0⟩

/-- The second record of the spec's worked scenario. -/
def si3n4 : Thin_film := ⟨"Si3N4", 0, 2.05, 0⟩

/-- The library list of the spec's worked scenario, as `loadData` returns it. -/
def lib2 : List Thin_film := [sio2, si3n4]

/-- The thickness the spec's worked scenario displays: CALCULATE from the
library at position 2 with spectral range 50 and fringe count 3. -/
noncomputable def scenarioThickness : Option ℝ :=
  (calcFromLibrary lib2 2 50 3 "n").bind fun o => o.measured.getThickness

/-! ### Digit and rendering lemmas -/

theorem natDigitsAux_eq (fuel n : ℕ) (h : n ≤ fuel) : natDigitsAux fuel n = Nat.digits 10 n := by
  induction fuel generalizing n with
  | zero =>
    interval_cases n
    simp [natDigitsAux]
  | succ fuel ih =>
    cases n with
    | zero => simp [natDigitsAux]
    | succ m =>
      rw [natDigitsAux, ih ((m + 1) / 10) (by omega), Nat.digits_def' (by norm_num) (Nat.succ_pos m)]

theorem natDigits_eq (n : ℕ) : natDigits n = Nat.digits 10 n :=
  natDigitsAux_eq n n le_rfl

theorem charVal_digitChar (d : ℕ) (h : d < 10) : charVal d.digitChar = d := by
  interval_cases d <;> rfl

theorem isDigit_digitChar (d : ℕ) (h : d < 10) : d.digitChar.isDigit = true := by
  interval_cases d <;> rfl

theorem renderNat_digits (n : ℕ) : ∀ c ∈ renderNat n, c.isDigit = true := by
  intro c hc
  unfold renderNat at hc
  split at hc
  · simp at hc
    subst hc
    rfl
  · simp only [List.mem_map, List.mem_reverse, natDigits_eq] at hc
    obtain ⟨d, hd, rfl⟩ := hc
    exact isDigit_digitChar d (Nat.digits_lt_base (by norm_num) hd)

theorem renderNat_ne_nil (n : ℕ) : renderNat n ≠ [] := by
  unfold renderNat
  split
  · simp
  · simp only [ne_eq, List.map_eq_nil_iff, List.reverse_eq_nil_iff, natDigits_eq]
    exact Nat.digits_ne_nil_iff_ne_zero.mpr (by assumption)

theorem digitsToNat_nil : digitsToNat [] = 0 := rfl

theorem digitsToNat_foldl_acc (cs : List Char) (a : ℕ) :
    cs.foldl (fun a c => 10 * a + charVal c) a = a * 10 ^ cs.length + digitsToNat cs := by
  induction cs generalizing a with
  | nil => simp [digitsToNat]
  | cons c t ih =>
    simp only [List.foldl_cons, digitsToNat, List.length_cons]
    rw [ih (10 * a + charVal c), ih (10 * 0 + charVal c)]
    ring

theorem digitsToNat_append (a b : List Char) :
    digitsToNat (a ++ b) = digitsToNat a * 10 ^ b.length + digitsToNat b := by
  unfold digitsToNat
  rw [List.foldl_append, digitsToNat_foldl_acc]
  rfl

theorem digitsToNat_renderNat (n : ℕ) : digitsToNat (renderNat n) = n := by
  unfold renderNat
  split
  · subst n
    rfl
  · rw [natDigits_eq]
    have key : ∀ ds : List ℕ, (∀ d ∈ ds, d < 10) →
        digitsToNat ((ds.reverse.map Nat.digitChar)) = Nat.ofDigits 10 ds := by
      intro ds
      induction ds with
      | nil => simp [digitsToNat]
      | cons d t ih =>
        intro hds
        simp only [List.reverse_cons, List.map_append, List.map_cons, List.map_nil]
        rw [digitsToNat_append, ih (fun x hx => hds x (List.mem_cons_of_mem d hx)),
          Nat.ofDigits_cons]
        have hd : charVal d.digitChar = d := charVal_digitChar d (hds d (List.mem_cons_self d t))
        simp [digitsToNat, hd]
        ring
    rw [key (Nat.digits 10 n) (fun d hd => Nat.digits_lt_base (by norm_num) hd),
      Nat.ofDigits_digits]

theorem renderNat_length_le (m k : ℕ) (hm : m < 10 ^ k) (hk : 1 ≤ k) :
    (renderNat m).length ≤ k := by
  unfold renderNat
  split
  · simpa using hk
  · rename_i hm0
    simp only [List.length_map, List.length_reverse, natDigits_eq]
    by_contra hlen
    push_neg at hlen
    have h1 : 10 ^ (Nat.digits 10 m).length ≤ 10 * m :=
      Nat.base_pow_length_digits_le 10 m (by norm_num) hm0
    have h2 : 10 ^ (k + 1) ≤ 10 ^ (Nat.digits 10 m).length :=
      Nat.pow_le_pow_right (by norm_num) hlen
    have h3 : 10 ^ (k + 1) = 10 * 10 ^ k := by ring
    omega

theorem digitsToNat_padZeros (k : ℕ) (cs : List Char) :
    digitsToNat (padZeros k cs) = digitsToNat cs := by
  unfold padZeros
  rw [digitsToNat_append]
  have : ∀ j : ℕ, digitsToNat (List.replicate j '0') = 0 := by
    intro j
    induction j with
    | zero => rfl
    | succ i ih =>
      have : List.replicate (i + 1) '0' = '0' :: List.replicate i '0' := rfl
      rw [this]
      unfold digitsToNat at ih ⊢
      simp only [List.foldl_cons]
      rw [digitsToNat_foldl_acc]
      simpa [charVal] using ih
  rw [this]
  simp

theorem padZeros_length (k : ℕ) (cs : List Char) (h : cs.length ≤ k) :
    (padZeros k cs).length = k := by
  unfold padZeros
  simp
  omega

theorem padZeros_digits (k : ℕ) (cs : List Char) (h : ∀ c ∈ cs, c.isDigit = true) :
    ∀ c ∈ padZeros k cs, c.isDigit = true := by
  intro c hc
  unfold padZeros at hc
  rcases List.mem_append.mp hc with h0 | h1
  · have := List.eq_of_mem_replicate h0
    subst this
    rfl
  · exact h c h1

/-! ### Character class helpers -/

theorem isDigit_not_ws (c : Char) (h : c.isDigit = true) : isWs c = false := by
  by_contra hc
  have hc' : isWs c = true := by
    cases hw : isWs c
    · exact absurd hw hc
    · rfl
  simp only [isWs, Bool.or_eq_true, decide_eq_true_eq] at hc'
  rcases hc' with ((h1 | h1) | h1) | h1 <;> (subst h1; exact absurd h (by decide))

theorem isDigit_ne_newline (c : Char) (h : c.isDigit = true) : (c = '\n') = False := by
  simp only [eq_iff_iff, iff_false]
  intro h1
  subst h1
  exact absurd h (by decide)

theorem not_ws_dash : isWs '-' = false := by decide

theorem not_ws_dot : isWs '.' = false := by decide

/-! ### decExp and exact decimal rendering -/

theorem decExp_dvd (d : ℕ) (h : d ∣ 10 ^ d) : d ∣ 10 ^ decExp d := by
  unfold decExp
  have hp : (10 ^ d % d == 0) = true := by
    simp only [beq_iff_eq]
    exact Nat.mod_eq_zero_of_dvd h
  have hsome : ((List.range (d + 1)).find? (fun k => 10 ^ k % d == 0)).isSome :=
    List.find?_isSome.mpr ⟨d, List.mem_range.mpr (by omega), hp⟩
  obtain ⟨k, hk⟩ := Option.isSome_iff_exists.mp hsome
  rw [hk, Option.getD_some]
  have hpk := List.find?_some hk
  simp only [beq_iff_eq] at hpk
  exact Nat.dvd_of_mod_eq_zero hpk

theorem qTok_render (q : ℚ) : (qTok q).render = renderPos q.num.natAbs q.den := by
  unfold qTok renderPos NumTok.render
  by_cases hk : decExp q.den = 0 <;> simp [hk]

theorem qTok_ok (q : ℚ) : (qTok q).ok := by
  unfold qTok NumTok.ok
  by_cases hk : decExp q.den = 0 <;>
    simp only [hk, if_true, if_false, reduceIte] <;>
    refine ⟨renderNat_digits _, ?_, Or.inl (renderNat_ne_nil _)⟩
  · intro f hf
    simp at hf
  · intro f hf c hc
    simp only [Option.some.injEq] at hf
    subst hf
    exact padZeros_digits _ _ (renderNat_digits _) c hc

theorem qTok_val (q : ℚ) (hq : 0 ≤ q) (hdec : IsDecimal q) : (qTok q).val = q := by
  have hden : (q.den : ℚ) ≠ 0 := by
    exact_mod_cast q.den_nz
  have hdvd : q.den ∣ 10 ^ decExp q.den := decExp_dvd q.den hdec
  have habs : ((q.num.natAbs : ℚ)) = (q.num : ℚ) := by
    have h0 : |q.num| = q.num := abs_of_nonneg (Rat.num_nonneg.mpr hq)
    rw [Int.cast_natAbs, h0]
  have hqden : (q.num : ℚ) = q * (q.den : ℚ) := by
    have h1 : (q.num : ℚ) / (q.den : ℚ) = q := Rat.num_div_den q
    rw [div_eq_iff hden] at h1
    exact h1
  have hexact : q.num.natAbs * 10 ^ decExp q.den / q.den * q.den
      = q.num.natAbs * 10 ^ decExp q.den :=
    Nat.div_mul_cancel (Dvd.dvd.mul_left hdvd _)
  have hexQ : ((q.num.natAbs * 10 ^ decExp q.den / q.den : ℕ) : ℚ) * (q.den : ℚ)
      = (q.num.natAbs : ℚ) * 10 ^ decExp q.den := by
    exact_mod_cast hexact
  unfold qTok NumTok.val
  by_cases hk0 : decExp q.den = 0
  · simp only [hk0, reduceIte, Option.getD_none, List.append_nil, List.length_nil, pow_zero,
      div_one, Bool.false_eq_true, if_false, mul_one]
    rw [digitsToNat_renderNat]
    rw [hk0] at hexQ
    simp only [pow_zero, mul_one] at hexQ
    refine mul_right_cancel₀ hden ?_
    rw [hexQ, habs]
    exact hqden
  · simp only [hk0, reduceIte, Option.getD_some, Bool.false_eq_true, if_false]
    have hlen : (padZeros (decExp q.den)
        (renderNat (q.num.natAbs * 10 ^ decExp q.den / q.den % 10 ^ decExp q.den))).length
        = decExp q.den :=
      padZeros_length _ _ (renderNat_length_le _ _ (Nat.mod_lt _ (by positivity)) (by omega))
    rw [digitsToNat_append, hlen, digitsToNat_padZeros, digitsToNat_renderNat,
      digitsToNat_renderNat]
    have hsplit : q.num.natAbs * 10 ^ decExp q.den / q.den / 10 ^ decExp q.den
          * 10 ^ decExp q.den
          + q.num.natAbs * 10 ^ decExp q.den / q.den % 10 ^ decExp q.den
        = q.num.natAbs * 10 ^ decExp q.den / q.den := by
      rw [mul_comm]
      exact Nat.div_add_mod _ _
    rw [hsplit]
    have h10 : ((10 : ℚ) ^ decExp q.den) ≠ 0 := by positivity
    rw [div_eq_iff h10]
    have hgoal : ((q.num.natAbs * 10 ^ decExp q.den / q.den : ℕ) : ℚ) * (q.den : ℚ)
        = q * 10 ^ decExp q.den * (q.den : ℚ) := by
      rw [hexQ, habs, hqden]
      ring
    exact mul_right_cancel₀ hden hgoal

theorem renderQ_data (q : ℚ) (hq : 0 ≤ q) : (renderQ q).data = (qTok q).render := by
  unfold renderQ
  have hn : ¬ q.num < 0 := not_lt.mpr (Rat.num_nonneg.mpr hq)
  simp [hn, qTok_render]

theorem NumTok.render_not_ws (t : NumTok) (ht : t.ok) : ∀ c ∈ t.render, isWs c = false := by
  intro c hc
  unfold NumTok.render at hc
  rcases List.mem_append.mp hc with h1 | h1
  · rcases List.mem_append.mp h1 with h2 | h2
    · split at h2
      · simp only [List.mem_singleton] at h2
        subst h2
        exact not_ws_dash
      · simp at h2
    · exact isDigit_not_ws c (ht.1 c h2)
  · rcases hf : t.fp with _ | f
    · rw [hf] at h1
      simp at h1
    · rw [hf] at h1
      rcases List.mem_cons.mp h1 with h3 | h3
      · subst h3
        exact not_ws_dot
      · exact isDigit_not_ws c (ht.2.1 f hf c h3)

theorem NumTok.render_no_newline (t : NumTok) (ht : t.ok) : ∀ c ∈ t.render, (c = '\n') = False := by
  intro c hc
  simp only [eq_iff_iff, iff_false]
  intro heq
  subst heq
  have := NumTok.render_not_ws t ht '\n' hc
  simp [isWs] at this

theorem NumTok.render_ne_nil (t : NumTok) (ht : t.ok) : t.render ≠ [] := by
  unfold NumTok.render
  rcases ht.2.2 with hip | ⟨f, hf, hfne⟩
  · intro h
    rcases List.append_eq_nil.mp h with ⟨h1, -⟩
    rcases List.append_eq_nil.mp h1 with ⟨-, h3⟩
    exact hip h3
  · rw [hf]
    intro h
    rcases List.append_eq_nil.mp h with ⟨-, h2⟩
    exact List.cons_ne_nil _ _ h2

/-! ### takeWhile, dropWhile and dropLast helpers -/

theorem takeWhile_append_stop (p : Char → Bool) (xs : List Char) (y : Char) (ys : List Char)
    (hxs : ∀ c ∈ xs, p c = true) (hy : p y = false) :
    (xs ++ y :: ys).takeWhile p = xs := by
  induction xs with
  | nil => simp [List.takeWhile_cons, hy]
  | cons a t ih =>
    rw [List.cons_append, List.takeWhile_cons, hxs a (List.mem_cons_self a t)]
    simp only [if_true]
    rw [ih (fun c hc => hxs c (List.mem_cons_of_mem a hc))]

theorem dropWhile_allpre (w r : List Char) (hw : ∀ c ∈ w, isWs c = true) :
    (w ++ r).dropWhile isWs = r.dropWhile isWs := by
  induction w with
  | nil => rfl
  | cons a t ih =>
    rw [List.cons_append, List.dropWhile_cons, hw a (List.mem_cons_self a t)]
    simp only [if_true]
    exact ih (fun c hc => hw c (List.mem_cons_of_mem a hc))

theorem dropWhile_head_false (p : Char → Bool) (l : List Char) (c : Char) (cr : List Char)
    (h : l.dropWhile p = c :: cr) : p c = false := by
  induction l with
  | nil => simp at h
  | cons a t ih =>
    rw [List.dropWhile_cons] at h
    split at h
    · exact ih h
    · rename_i hp
      cases h
      simpa using hp

theorem dropLast_cons_cons (a b : Char) (u : List Char) :
    (a :: b :: u).dropLast = a :: (b :: u).dropLast := rfl

theorem tailOk_cons (a : Char) (s : List Char) (h : tailOk (a :: s)) : tailOk s := by
  unfold tailOk at h ⊢
  intro hmem
  apply h
  cases s with
  | nil => simp at hmem
  | cons b u =>
    rw [dropLast_cons_cons]
    exact List.mem_cons_of_mem a hmem

theorem tailOk_dropWhile (p : Char → Bool) (t : List Char) (h : tailOk t) :
    tailOk (t.dropWhile p) := by
  induction t with
  | nil => exact h
  | cons a s ih =>
    rw [List.dropWhile_cons]
    split
    · exact ih (tailOk_cons a s h)
    · exact h

theorem isDigit_ne_char (c d : Char) (h : c.isDigit = true) (hd : d.isDigit = false) :
    (c = d) = False := by
  simp only [eq_iff_iff, iff_false]
  intro h1
  subst h1
  rw [h] at hd
  exact Bool.noConfusion hd

/-! ### Stream primitive specifications -/

theorem skipWs_spec (w : List Char) (c : Char) (cs : List Char)
    (hw : ∀ x ∈ w, isWs x = true) (hc : isWs c = false) :
    IStream.skipWs ⟨w ++ c :: cs, false, false⟩ = ⟨c :: cs, false, false⟩ := by
  unfold IStream.skipWs
  simp only [Bool.or_self, Bool.false_eq_true, if_false]
  rw [dropWhile_allpre w _ hw, List.dropWhile_cons, hc]
  simp

theorem getline_spec (m : String) (rest : List Char)
    (hnl : '\n' ∉ m.data) :
    IStream.getline ⟨m.data ++ '\n' :: rest, false, false⟩ = (m, ⟨rest, false, false⟩) := by
  unfold IStream.getline
  have htw : (m.data ++ '\n' :: rest).takeWhile (fun c => c ≠ '\n') = m.data := by
    refine takeWhile_append_stop _ _ _ _ (fun c hc => ?_) (by simp)
    simp only [ne_eq, decide_eq_true_eq]
    intro h
    exact hnl (h ▸ hc)
  simp only [Bool.or_self, Bool.false_eq_true, if_false, htw, List.drop_left,
    List.head?_cons, Option.some.injEq, if_true, List.tail_cons, reduceIte]

theorem readQ_core_none (neg : Bool) (ip : List Char) (rest : List Char) (junk : ℚ × IStream)
    (hip : ∀ c ∈ ip, c.isDigit = true) (hipne : ip ≠ []) :
    (let d2 := ip ++ '\n' :: rest;
     let ipr := d2.takeWhile Char.isDigit;
     let d3 := d2.drop ipr.length;
     let fpRest : List Char × List Char :=
       if d3.head? = some '.' then
         (d3.tail.takeWhile Char.isDigit, d3.tail.drop (d3.tail.takeWhile Char.isDigit).length)
       else ([], d3);
     let fpr := fpRest.1;
     let d4 := fpRest.2;
     if ipr.isEmpty && fpr.isEmpty then junk
     else
       (if neg then -((digitsToNat (ipr ++ fpr) : ℚ) / 10 ^ fpr.length)
        else (digitsToNat (ipr ++ fpr) : ℚ) / 10 ^ fpr.length,
        { data := d4, failbit := false, eofbit := d4.isEmpty }))
    = (NumTok.val ⟨neg, ip, none⟩, ⟨'\n' :: rest, false, false⟩) := by
  have hipE : ip.isEmpty = false := by
    cases ip
    · exact absurd rfl hipne
    · rfl
  have hA : (ip ++ '\n' :: rest).takeWhile Char.isDigit = ip :=
    takeWhile_append_stop _ _ _ _ hip (by decide)
  have hB : (ip ++ '\n' :: rest).drop ip.length = '\n' :: rest := List.drop_left _ _
  simp only [hA, hB, List.head?_cons, Option.some.injEq,
    show (('\n' : Char) = '.') = False by decide, if_false, hipE, Bool.false_and,
    Bool.false_eq_true, NumTok.val, Option.getD_none, List.length_nil]
  rfl

theorem readQ_core_some (neg : Bool) (ip f : List Char) (rest : List Char) (junk : ℚ × IStream)
    (hip : ∀ c ∈ ip, c.isDigit = true) (hfd : ∀ c ∈ f, c.isDigit = true)
    (hne : ip ≠ [] ∨ f ≠ []) :
    (let d2 := ip ++ ('.' :: (f ++ '\n' :: rest));
     let ipr := d2.takeWhile Char.isDigit;
     let d3 := d2.drop ipr.length;
     let fpRest : List Char × List Char :=
       if d3.head? = some '.' then
         (d3.tail.takeWhile Char.isDigit, d3.tail.drop (d3.tail.takeWhile Char.isDigit).length)
       else ([], d3);
     let fpr := fpRest.1;
     let d4 := fpRest.2;
     if ipr.isEmpty && fpr.isEmpty then junk
     else
       (if neg then -((digitsToNat (ipr ++ fpr) : ℚ) / 10 ^ fpr.length)
        else (digitsToNat (ipr ++ fpr) : ℚ) / 10 ^ fpr.length,
        { data := d4, failbit := false, eofbit := d4.isEmpty }))
    = (NumTok.val ⟨neg, ip, some f⟩, ⟨'\n' :: rest, false, false⟩) := by
  have hguard : (ip.isEmpty && f.isEmpty) = false := by
    rcases hne with h | h
    · cases ip
      · exact absurd rfl h
      · rfl
    · cases f
      · exact absurd rfl h
      · simp
  have hA : (ip ++ ('.' :: (f ++ '\n' :: rest))).takeWhile Char.isDigit = ip :=
    takeWhile_append_stop _ _ _ _ hip (by decide)
  have hB : (ip ++ ('.' :: (f ++ '\n' :: rest))).drop ip.length = '.' :: (f ++ '\n' :: rest) :=
    List.drop_left _ _
  have hC : (f ++ '\n' :: rest).takeWhile Char.isDigit = f :=
    takeWhile_append_stop _ _ _ _ hfd (by decide)
  have hD : (f ++ '\n' :: rest).drop f.length = '\n' :: rest := List.drop_left _ _
  simp only [hA, hB, List.head?_cons, Option.some.injEq,
    show (('.' : Char) = '.') = True by simp, if_true, List.tail_cons, hC, hD, hguard,
    Bool.false_eq_true, if_false, NumTok.val, Option.getD_some, reduceIte]
  rfl

theorem readQ_token (t : NumTok) (rest : List Char) (ht : t.ok) :
    IStream.readQ ⟨t.render ++ '\n' :: rest, false, false⟩
      = (t.val, ⟨'\n' :: rest, false, false⟩) := by
  obtain ⟨c0, cs0, hrend⟩ := List.exists_cons_of_ne_nil (NumTok.render_ne_nil t ht)
  have hc0 : isWs c0 = false :=
    NumTok.render_not_ws t ht c0 (by rw [hrend]; exact List.mem_cons_self c0 cs0)
  have hdrop : (t.render ++ '\n' :: rest).dropWhile isWs = t.render ++ '\n' :: rest := by
    rw [hrend, List.cons_append, List.dropWhile_cons, hc0]
    simp
  have hnonempty : (t.render ++ '\n' :: rest).isEmpty = false := by
    rw [hrend]
    rfl
  unfold IStream.readQ
  simp only [Bool.or_self, Bool.false_eq_true, if_false, hdrop, hnonempty]
  obtain ⟨tneg, tip, tfp⟩ := t
  have hipd : ∀ c ∈ tip, c.isDigit = true := ht.1
  rcases tfp with _ | f
  · have hipne : tip ≠ [] := by
      rcases ht.2.2 with h | ⟨f, hf, -⟩
      · exact h
      · cases hf
    have hL : NumTok.render ⟨tneg, tip, none⟩ ++ '\n' :: rest
        = (if tneg then ['-'] else []) ++ (tip ++ '\n' :: rest) := by
      unfold NumTok.render
      simp [List.append_assoc]
    rw [hL]
    cases tneg
    · obtain ⟨a, ip', hip⟩ := List.exists_cons_of_ne_nil hipne
      have ha : a.isDigit = true := hipd a (by rw [hip]; exact List.mem_cons_self a ip')
      have hhead : ((if false then ['-'] else []) ++ (tip ++ '\n' :: rest)).head? = some a := by
        rw [if_neg (by simp), List.nil_append, hip]
        rfl
      simp only [if_neg (by simp : ¬ False), Bool.false_eq_true, if_false, List.nil_append]
      have hhead' : (tip ++ '\n' :: rest).head? = some a := by
        rw [hip]
        rfl
      simp only [hhead', Option.some.injEq, isDigit_ne_char a '-' ha (by decide),
        isDigit_ne_char a '+' ha (by decide), if_false]
      exact readQ_core_none false tip rest _ hipd hipne
    · simp only [if_pos rfl, reduceIte, List.cons_append, List.nil_append, List.head?_cons,
        Option.some.injEq, show (('-' : Char) = '-') = True by simp, if_true, List.tail_cons]
      exact readQ_core_none true tip rest _ hipd hipne
  · have hfd : ∀ c ∈ f, c.isDigit = true := ht.2.1 f rfl
    have hne2 : tip ≠ [] ∨ f ≠ [] := by
      rcases ht.2.2 with h | ⟨f', hf', hfne⟩
      · exact Or.inl h
      · cases hf'
        exact Or.inr hfne
    have hL : NumTok.render ⟨tneg, tip, some f⟩ ++ '\n' :: rest
        = (if tneg then ['-'] else []) ++ (tip ++ ('.' :: (f ++ '\n' :: rest))) := by
      unfold NumTok.render
      simp [List.append_assoc]
    rw [hL]
    cases tneg
    · simp only [Bool.false_eq_true, if_false, List.nil_append]
      rcases tip with _ | ⟨a, ip'⟩
      · simp only [List.nil_append, List.head?_cons, Option.some.injEq,
          show (('.' : Char) = '-') = False by decide,
          show (('.' : Char) = '+') = False by decide, if_false]
        exact readQ_core_some false [] f rest _ hipd hfd hne2
      · have ha : a.isDigit = true := hipd a (List.mem_cons_self a ip')
        simp only [List.cons_append, List.head?_cons, Option.some.injEq,
          isDigit_ne_char a '-' ha (by decide),
          isDigit_ne_char a '+' ha (by decide), if_false]
        exact readQ_core_some false (a :: ip') f rest _ hipd hfd hne2
    · simp only [reduceIte, List.cons_append, List.nil_append, List.head?_cons,
        Option.some.injEq, show (('-' : Char) = '-') = True by simp, if_true, List.tail_cons]
      exact readQ_core_some true tip f rest _ hipd hfd hne2

theorem takeWhile_all (p : Char → Bool) (l : List Char) (h : ∀ c ∈ l, p c = true) :
    l.takeWhile p = l := by
  induction l with
  | nil => rfl
  | cons a t ih =>
    rw [List.takeWhile_cons, h a (List.mem_cons_self a t)]
    simp only [if_true]
    rw [ih (fun c hc => h c (List.mem_cons_of_mem a hc))]

theorem tailOk_cases (r : List Char) (h : tailOk r) :
    '\n' ∉ r ∨ ∃ u, r = u ++ ['\n'] ∧ '\n' ∉ u := by
  by_cases hn : '\n' ∈ r
  · right
    have hr : r ≠ [] := by
      rintro rfl
      simp at hn
    have hsplit := List.dropLast_append_getLast hr
    have hlast : r.getLast hr = '\n' := by
      rcases List.mem_append.mp (hsplit ▸ hn) with h1 | h1
      · exact absurd h1 h
      · exact (List.mem_singleton.mp h1).symm
    exact ⟨r.dropLast, by rw [← hlast]; exact hsplit.symm, h⟩
  · left
    exact hn

theorem readStream_spec (film : Thin_film) (m : String) (t : NumTok) (w rest : List Char)
    (hw : ∀ x ∈ w, isWs x = true) (hm : nameOk m) (ht : t.ok) :
    film.readStream ⟨w ++ (m.data ++ '\n' :: (t.render ++ '\n' :: rest)), false, false⟩
      = (mkLoaded film m t.val, ⟨'\n' :: rest, false, false⟩) := by
  obtain ⟨c0, cs0, hm0⟩ := List.exists_cons_of_ne_nil hm.1
  have hc0 : isWs c0 = false := hm.2.2 c0 (by rw [hm0]; rfl)
  have h1 : IStream.skipWs ⟨w ++ (m.data ++ '\n' :: (t.render ++ '\n' :: rest)), false, false⟩
      = ⟨m.data ++ '\n' :: (t.render ++ '\n' :: rest), false, false⟩ := by
    have h2 := skipWs_spec w c0 (cs0 ++ '\n' :: (t.render ++ '\n' :: rest)) hw hc0
    rw [hm0]
    exact h2
  unfold Thin_film.readStream
  rw [h1]
  simp only [getline_spec m (t.render ++ '\n' :: rest) hm.2.1, readQ_token t rest ht]
  rfl

theorem loadLoop_step (fuel : ℕ) (film : Thin_film) (m : String) (t : NumTok)
    (w rest : List Char) (hw : ∀ x ∈ w, isWs x = true) (hm : nameOk m) (ht : t.ok) :
    loadLoop (fuel + 1) film ⟨w ++ (m.data ++ '\n' :: (t.render ++ '\n' :: rest)), false, false⟩
      = mkLoaded film m t.val
        :: loadLoop fuel (mkLoaded film m t.val) ⟨'\n' :: rest, false, false⟩ := by
  rw [loadLoop]
  simp only [readStream_spec film m t w rest hw hm ht]
  rfl

theorem loadLoop_not_good_after (fuel : ℕ) (film : Thin_film) (s : IStream)
    (hs : s.good = true) (h : (film.readStream s).2.good = false) :
    loadLoop (fuel + 1) film s = [] := by
  rw [loadLoop]
  simp only [hs, if_true, h, Bool.false_eq_true, if_false]

theorem loadLoop_tail (fuel : ℕ) (film : Thin_film) (w t : List Char)
    (hw : ∀ c ∈ w, isWs c = true) (ht : tailOk t) :
    loadLoop fuel film ⟨w ++ t, false, false⟩ = [] := by
  cases fuel with
  | zero => rfl
  | succ fuel =>
    have hdw : (w ++ t).dropWhile isWs = t.dropWhile isWs := dropWhile_allpre w t hw
    rcases hr : t.dropWhile isWs with _ | ⟨c, cr⟩
    · have hskip : IStream.skipWs ⟨w ++ t, false, false⟩ = ⟨[], false, true⟩ := by
        unfold IStream.skipWs
        simp [hdw, hr]
      have hbad : (film.readStream ⟨w ++ t, false, false⟩).2.good = false := by
        unfold Thin_film.readStream
        rw [hskip]
        rfl
      exact loadLoop_not_good_after fuel film _ rfl hbad
    · have hc : isWs c = false := dropWhile_head_false isWs t c cr hr
      have hskip : IStream.skipWs ⟨w ++ t, false, false⟩ = ⟨c :: cr, false, false⟩ := by
        unfold IStream.skipWs
        simp [hdw, hr]
      have htr : tailOk (c :: cr) := hr ▸ tailOk_dropWhile isWs t ht
      rcases tailOk_cases _ htr with hnl | ⟨u, hu, hunl⟩
      · have htw : (c :: cr).takeWhile (fun x => x ≠ '\n') = c :: cr :=
          takeWhile_all _ _ (fun x hx => by
            simp only [ne_eq, decide_eq_true_eq]
            intro hx2
            exact hnl (hx2 ▸ hx))
        have hgl : IStream.getline ⟨c :: cr, false, false⟩
            = (⟨c :: cr⟩, ⟨[], false, true⟩) := by
          unfold IStream.getline
          rw [htw]
          simp [List.drop_length]
        have hbad : (film.readStream ⟨w ++ t, false, false⟩).2.good = false := by
          unfold Thin_film.readStream
          rw [hskip]
          simp only [hgl]
          rfl
        exact loadLoop_not_good_after fuel film _ rfl hbad
      · have hune : u ≠ [] := by
          rintro rfl
          simp only [List.nil_append] at hu
          injection hu with h1 h2
          subst h1
          exact absurd hc (by decide)
        have htw : (c :: cr).takeWhile (fun x => x ≠ '\n') = u := by
          rw [hu]
          refine takeWhile_append_stop _ _ _ _ (fun x hx => ?_) (by simp)
          simp only [ne_eq, decide_eq_true_eq]
          intro hx2
          exact hunl (hx2 ▸ hx)
        have hdrop2 : (c :: cr).drop u.length = ['\n'] := by
          rw [hu]
          exact List.drop_left u ['\n']
        have hgl : IStream.getline ⟨c :: cr, false, false⟩ = (⟨u⟩, ⟨[], false, false⟩) := by
          unfold IStream.getline
          rw [htw]
          simp [hdrop2]
        have hbad : (film.readStream ⟨w ++ t, false, false⟩).2.good = false := by
          unfold Thin_film.readStream
          rw [hskip]
          simp only [hgl]
          rfl
        exact loadLoop_not_good_after fuel film _ rfl hbad

theorem mkLoaded_mkLoaded (film : Thin_film) (m m' : String) (v v' : ℚ) :
    mkLoaded (mkLoaded film m v) m' v' = mkLoaded film m' v' := rfl

theorem loadLoop_pairs (ps : List (String × NumTok)) (fuel : ℕ) (film : Thin_film)
    (w t : List Char) (hw : ∀ c ∈ w, isWs c = true) (hp : pairsOk ps) (ht : tailOk t)
    (hfuel : w.length + (renderPairs ps).length + t.length < fuel) :
    loadLoop fuel film ⟨w ++ (renderPairs ps ++ t), false, false⟩
      = ps.map (fun p => mkLoaded film p.1 p.2.val) := by
  induction ps generalizing fuel film w with
  | nil =>
    simp only [renderPairs, List.nil_append, List.map_nil]
    exact loadLoop_tail fuel film w t hw ht
  | cons p ps ih =>
    obtain ⟨fuel, rfl⟩ : ∃ f', fuel = f' + 1 := ⟨fuel - 1, by omega⟩
    have hpo := hp p (List.mem_cons_self p ps)
    have hname : 1 ≤ p.1.length := by
      have h := hpo.1.1
      rw [show p.1.length = p.1.data.length from rfl]
      cases hd : p.1.data
      · exact absurd hd h
      · simp [hd]
    have hlen : (renderPairs (p :: ps)).length
        = p.1.length + 1 + (p.2.render.length + 1 + (renderPairs ps).length) := by
      simp [renderPairs]
      omega
    have hshape : renderPairs (p :: ps) ++ t
        = p.1.data ++ '\n' :: (p.2.render ++ '\n' :: (renderPairs ps ++ t)) := by
      simp [renderPairs, List.append_assoc]
    rw [hshape, loadLoop_step fuel film p.1 p.2 w (renderPairs ps ++ t) hw hpo.1 hpo.2]
    have hre := ih fuel (mkLoaded film p.1 p.2.val) ['\n']
      (by
        intro c hc
        simp only [List.mem_singleton] at hc
        subst hc
        rfl)
      (fun q hq => hp q (List.mem_cons_of_mem p hq))
      (by
        simp only [List.length_cons, List.length_nil]
        omega)
    have hconv : ('\n' :: (renderPairs ps ++ t) : List Char)
        = ['\n'] ++ (renderPairs ps ++ t) := rfl
    rw [hconv, hre]
    simp [mkLoaded_mkLoaded]

theorem string_eq_of_data (s s' : String) (h : s.data = s'.data) : s = s' := by
  cases s
  cases s'
  exact congrArg String.mk (by simpa using h)

theorem loadData_pairs (ps : List (String × NumTok)) (t : List Char)
    (hp : pairsOk ps) (ht : tailOk t) :
    loadData ⟨renderPairs ps ++ t⟩
      = ps.map (fun p => mkLoaded default p.1 p.2.val) := by
  unfold loadData
  have hconv : ((⟨renderPairs ps ++ t⟩ : String)).data = [] ++ (renderPairs ps ++ t) := rfl
  rw [hconv]
  exact loadLoop_pairs ps _ default [] t (by simp) hp ht (by simp)

theorem saveData_data (l : List Thin_film) (hc : canonL l) :
    (saveData l).data = renderPairs (l.map fun f => (f.mat, qTok f.index)) := by
  induction l with
  | nil => rfl
  | cons f l ih =>
    have hcf := hc f (List.mem_cons_self f l)
    have hcl : canonL l := fun g hg => hc g (List.mem_cons_of_mem f hg)
    show (f.writeFile ++ saveData l).data = _
    rw [String.data_append]
    unfold Thin_film.writeFile
    rw [String.data_append, String.data_append, String.data_append,
      renderQ_data f.index hcf.2.1, ih hcl]
    simp [renderPairs, List.append_assoc]

theorem saveData_proj (l : List Thin_film) :
    saveData (l.map fun f => mkLoaded default f.mat f.index) = saveData l := by
  induction l with
  | nil => rfl
  | cons f l ih =>
    show Thin_film.writeFile (mkLoaded default f.mat f.index) ++ _ = _
    rw [ih]
    rfl

theorem loadData_saveData (l : List Thin_film) (hc : canonL l) :
    loadData (saveData l) = l.map (fun f => mkLoaded default f.mat f.index) := by
  have h1 : saveData l = ⟨renderPairs (l.map fun f => (f.mat, qTok f.index)) ++ []⟩ := by
    apply string_eq_of_data
    rw [saveData_data l hc]
    simp
  have hp : pairsOk (l.map fun f => (f.mat, qTok f.index)) := by
    intro p hp
    rcases List.mem_map.mp hp with ⟨f, hf, rfl⟩
    exact ⟨(hc f hf).1, qTok_ok f.index⟩
  rw [h1, loadData_pairs _ [] hp (by simp [tailOk])]
  rw [List.map_map]
  apply List.map_congr_left
  intro f hf
  simp only [Function.comp_apply]
  rw [qTok_val f.index (hc f hf).2.1 (hc f hf).2.2]

/-! ### deleteFilm loop lemmas -/

theorem set_last_append (u : List Thin_film) (a b : Thin_film) :
    (u ++ [a]).set u.length b = u ++ [b] := by
  induction u with
  | nil => rfl
  | cons x v ih =>
    simp only [List.cons_append, List.length_cons, List.set_cons_succ, ih]

theorem set_last_append' (u : List Thin_film) (a b : Thin_film) (n : ℕ) (hn : n = u.length) :
    (u ++ [a]).set n b = u ++ [b] := by
  subst hn
  exact set_last_append u a b

theorem shiftLoop_dropLast (fuel : ℕ) (l : List Thin_film) (pos : ℕ)
    (hpos : pos < l.length) (hfuel : l.length - 1 - pos ≤ fuel) :
    (shiftLoop fuel l pos).dropLast = l.take pos ++ l.drop (pos + 1) := by
  induction fuel generalizing l pos with
  | zero =>
    rw [shiftLoop]
    have hd : l.drop (pos + 1) = [] := List.drop_eq_nil_of_le (by omega)
    rw [hd, List.append_nil, List.dropLast_eq_take]
    congr 1
    omega
  | succ fuel ih =>
    rw [shiftLoop]
    by_cases h : pos + 1 < l.length
    · rw [if_pos h]
      have hx : l.getD (pos + 1) default = l[pos + 1] := by
        rw [List.getD_eq_getElem?_getD, List.getElem?_eq_getElem h, Option.getD_some]
      have hset_len : (l.set pos (l.getD (pos + 1) default)).length = l.length := by
        simp
      rw [ih (l.set pos (l.getD (pos + 1) default)) (pos + 1)
        (by rw [hset_len]; omega) (by rw [hset_len]; omega)]
      have htake : l.take (pos + 1) = l.take pos ++ [l[pos]] := by
        rw [List.take_succ, List.getElem?_eq_getElem (by omega)]
        rfl
      have hlen : (l.take pos).length = pos := List.length_take_of_le (by omega)
      rw [hx, List.set_take, List.drop_set, if_pos (by omega : pos < pos + 1 + 1)]
      rw [htake, set_last_append' (l.take pos) _ _ pos hlen.symm,
        List.append_assoc, List.drop_eq_getElem_cons h]
      rfl
    · rw [if_neg h]
      have hd : l.drop (pos + 1) = [] := List.drop_eq_nil_of_le (by omega)
      rw [hd, List.append_nil, List.dropLast_eq_take]
      congr 1
      omega

theorem deleteFilm_eq (l : List Thin_film) (k : ℕ) (h1 : 1 ≤ k) (h2 : k ≤ l.length) :
    deleteFilm l (k : ℤ)
      = some (l.take (k - 1) ++ l.drop k, saveData (l.take (k - 1) ++ l.drop k)) := by
  unfold deleteFilm getFilmIndex
  have hne : l.isEmpty = false := by
    cases l
    · simp at h2
      omega
    · rfl
  rw [hne]
  simp only [Bool.false_eq_true, if_false]
  have hnneg : ¬ ((k : ℤ) - 1 < 0) := by omega
  rw [if_neg hnneg]
  have htn : ((k : ℤ) - 1).toNat = k - 1 := by omega
  rw [htn, shiftLoop_dropLast l.length l (k - 1) (by omega) (by omega)]
  have : k - 1 + 1 = k := by omega
  rw [this]

/-! ### Square root bounds for the worked scenario -/

theorem sqrt_scenario_lb : (1.789 : ℝ) < Real.sqrt 3.2025 := by
  have h := Real.sq_sqrt (show (0 : ℝ) ≤ 3.2025 by norm_num)
  have hnn := Real.sqrt_nonneg (3.2025 : ℝ)
  nlinarith [h, hnn]

theorem sqrt_scenario_ub : Real.sqrt 3.2025 < 1.79 := by
  have h := Real.sq_sqrt (show (0 : ℝ) ≤ 3.2025 by norm_num)
  have hnn := Real.sqrt_nonneg (3.2025 : ℝ)
  nlinarith [h, hnn]

/-! ### Concrete rendering values and canonical libraries -/

theorem renderQ_146 : renderQ (1.46 : ℚ) = "1.46" := by
  unfold renderQ
  rw [show (1.46 : ℚ).num = 73 from by norm_num [Rat.num],
    show (1.46 : ℚ).den = 50 from by norm_num [Rat.den]]
  decide

theorem renderQ_205 : renderQ (2.05 : ℚ) = "2.05" := by
  unfold renderQ
  rw [show (2.05 : ℚ).num = 41 from by norm_num [Rat.num],
    show (2.05 : ℚ).den = 20 from by norm_num [Rat.den]]
  decide

theorem renderQ_235 : renderQ (2.35 : ℚ) = "2.35" := by
  unfold renderQ
  rw [show (2.35 : ℚ).num = 47 from by norm_num [Rat.num],
    show (2.35 : ℚ).den = 20 from by norm_num [Rat.den]]
  decide

theorem isDecimal_146 : IsDecimal (1.46 : ℚ) := by
  unfold IsDecimal
  rw [show (1.46 : ℚ).den = 50 from by norm_num [Rat.den]]
  decide

theorem isDecimal_205 : IsDecimal (2.05 : ℚ) := by
  unfold IsDecimal
  rw [show (2.05 : ℚ).den = 20 from by norm_num [Rat.den]]
  decide

theorem isDecimal_235 : IsDecimal (2.35 : ℚ) := by
  unfold IsDecimal
  rw [show (2.35 : ℚ).den = 20 from by norm_num [Rat.den]]
  decide

theorem canonL_lib2 : canonL lib2 := by
  intro f hf
  simp only [lib2, List.mem_cons, List.not_mem_nil, or_false] at hf
  rcases hf with rfl | rfl
  · exact ⟨by decide, by norm_num [sio2], by rw [show sio2.index = (1.46 : ℚ) from rfl]; exact isDecimal_146⟩
  · exact ⟨by decide, by norm_num [si3n4], by rw [show si3n4.index = (2.05 : ℚ) from rfl]; exact isDecimal_205⟩

theorem saveData_append (l : List Thin_film) (f : Thin_film) :
    saveData (l ++ [f]) = saveData l ++ f.writeFile := by
  induction l with
  | nil =>
    show f.writeFile ++ "" = "" ++ f.writeFile
    rw [String.append_empty]
    rfl
  | cons g l ih =>
    show g.writeFile ++ saveData (l ++ [f]) = (g.writeFile ++ saveData l) ++ f.writeFile
    rw [ih, String.append_assoc]

theorem saveData_lib2 : saveData lib2 = "SiO2\n1.46\nSi3N4\n2.05\n" := by
  show sio2.writeFile ++ (si3n4.writeFile ++ "") = _
  unfold Thin_film.writeFile
  rw [show sio2.index = (1.46 : ℚ) from rfl, show si3n4.index = (2.05 : ℚ) from rfl,
    renderQ_146, renderQ_205]
  decide

/-! ### Claims -/

/-- Claim C4 (confirmed): for every value `v`, `setIndex(v)`,
`setspectralRange(v)` and `setnumberOfMaxima(v)` store `0` when `v` is
negative and store `v` itself when `v ≥ 0`. -/
theorem C4_setters_clamp : ∀ (f : Thin_film) (v : ℚ),
    (f.setIndex v).index = (if v < 0 then 0 else v)
    ∧ (f.setspectralRange v).spectralRange = (if v < 0 then 0 else v)
    ∧ (f.setnumberOfMaxima v).numberOfMaxima = (if v < 0 then 0 else v) := by
  intro f v
  unfold Thin_film.setIndex Thin_film.setspectralRange Thin_film.setnumberOfMaxima
  split_ifs <;> simp

/-- Claim C3 (amended): the invariant `refractiveIndex, spectralRange,
fringeCount ≥ 0` is established and preserved by the three clamping setters,
but it does not survive every mutation of the program: `Thin_film::read()`
(console) and the file-reading members store raw, unclamped values. -/
theorem C3_setter_invariant : ∀ (f : Thin_film) (v : ℚ),
    (Thin_film.Inv f → Thin_film.Inv (f.setIndex v))
    ∧ (Thin_film.Inv f → Thin_film.Inv (f.setspectralRange v))
    ∧ (Thin_film.Inv f → Thin_film.Inv (f.setnumberOfMaxima v))
    ∧ 0 ≤ (f.setIndex v).index
    ∧ 0 ≤ (f.setspectralRange v).spectralRange
    ∧ 0 ≤ (f.setnumberOfMaxima v).numberOfMaxima := by
  intro f v
  unfold Thin_film.Inv Thin_film.setIndex Thin_film.setspectralRange Thin_film.setnumberOfMaxima
  split_ifs with h <;>
    refine ⟨fun hi => ⟨?_, ?_, ?_⟩, fun hi => ⟨?_, ?_, ?_⟩, fun hi => ⟨?_, ?_, ?_⟩, ?_, ?_, ?_⟩ <;>
    simp_all

/-- Witness for claim C3's amended theorem at a concrete record and value. -/
theorem C3_setter_invariant_witness :
    Thin_film.Inv (default : Thin_film)
    ∧ Thin_film.Inv ((default : Thin_film).setIndex (-5)) := by
  have hinv : Thin_film.Inv (default : Thin_film) := ⟨le_refl 0, le_refl 0, le_refl 0⟩
  exact ⟨hinv, (C3_setter_invariant default (-5)).1 hinv⟩

/-- Counterexample for claim C3 as stated: `Thin_film::read()` stores the raw
console values, so after that mutation all three numeric fields can be
negative. -/
theorem C3_counterexample :
    ((default : Thin_film).read "X" (-1) (-2) (-3)).index < 0
    ∧ ((default : Thin_film).read "X" (-1) (-2) (-3)).spectralRange < 0
    ∧ ((default : Thin_film).read "X" (-1) (-2) (-3)).numberOfMaxima < 0 := by
  refine ⟨?_, ?_, ?_⟩ <;> norm_num [Thin_film.read]

/-- Claim C10 (confirmed): user-entered 1-based positions reach the list
accesses of CALCULATE and DELETE without any bounds validation; in the total
embedding the access yields `none` for position 0, for a position past the
end, and for any position on an empty library (where DELETE's wrapped loop
bound and `pop_back` are undefined behaviour, also modelled as `none`). -/
theorem C10_no_bounds_check :
    getFilm lib2 0 = none
    ∧ getFilm lib2 3 = none
    ∧ getFilm ([] : List Thin_film) 1 = none
    ∧ deleteFilm ([] : List Thin_film) 1 = none
    ∧ calcFromLibrary lib2 0 50 3 "n" = none := by
  exact ⟨rfl, rfl, rfl, rfl, rfl⟩

/-- Claim C1 (amended): `getThickness()` computes
`(numberOfMaxima * spectralRange) / 2 * sqrt(index^2 - 1)` left to right,
exactly the spec's formula; the result is NaN (`none`) exactly when
`index^2 < 1`, i.e. `-1 < index < 1`. The claim's condition `index < 1` is
correct on the clamped range `index ≥ 0`, but unclamped reads can store
`index ≤ -1`, where the result is finite. -/
theorem C1_thickness_formula : ∀ f : Thin_film,
    f.getThickness = spec_thickness f.index f.spectralRange f.numberOfMaxima
    ∧ (f.getThickness = none ↔ f.index ^ 2 < 1) := by
  intro f
  have hcond : (f.index * f.index - 1 < 0) ↔ (((f.index : ℝ)) ^ 2 - 1 < 0) := by
    rw [sq]
    constructor
    · intro h
      have h2 : ((f.index : ℝ)) * (f.index : ℝ) - 1 < 0 := by
        exact_mod_cast h
      linarith
    · intro h
      have h2 : f.index * f.index - 1 < 0 := by
        exact_mod_cast h
      linarith
  constructor
  · unfold Thin_film.getThickness spec_thickness
    split_ifs with h1 h2 h2
    · rfl
    · exact absurd (hcond.mp h1) h2
    · exact absurd (hcond.mpr h2) h1
    · rw [sq]
  · unfold Thin_film.getThickness
    split_ifs with h1
    · constructor
      · intro
        rw [sq]
        linarith
      · intro
        rfl
    · constructor
      · intro hx
        simp at hx
      · intro hlt
        rw [sq] at hlt
        linarith

/-- Counterexample for claim C1 as stated: a record loaded from the file
`"X\n-1\n"` stores `index = -1 < 1`, yet `getThickness()` returns the finite
value `0`, not NaN. -/
theorem C1_counterexample :
    loadData "X\n-1\n" = [{ mat := "X", spectralRange := 0, index := -1, numberOfMaxima := 0 }]
    ∧ ({ mat := "X", spectralRange := 0, index := -1, numberOfMaxima := 0 } : Thin_film).index < 1
    ∧ Thin_film.getThickness
        { mat := "X", spectralRange := 0, index := -1, numberOfMaxima := 0 } = some 0 := by
  refine ⟨?_, by norm_num, ?_⟩
  · have hstr : (⟨renderPairs [("X", ⟨true, ['1'], none⟩)] ++ []⟩ : String) = "X\n-1\n" := by
      decide
    have h := loadData_pairs [("X", ⟨true, ['1'], none⟩)] [] (by decide) (by decide)
    rw [hstr] at h
    rw [h]
    simp only [List.map_cons, List.map_nil, List.cons.injEq, and_true]
    unfold mkLoaded NumTok.val
    simp only [Option.getD_none, List.append_nil, List.length_nil, pow_zero, div_one,
      reduceIte]
    rw [show digitsToNat ['1'] = 1 from rfl]
    norm_num [default]
  · unfold Thin_film.getThickness
    rw [if_neg (by norm_num)]
    simp

/-- Claim C5 (amended): loading a file and saving the loaded list writes
exactly the loaded (name, index) records in order with the transient fields
dropped; the round trip is byte-identical for canonical library files (the
image of `saveData`: names read back intact, nonnegative finite-decimal
indices), but not for arbitrary file contents. -/
theorem C5_roundtrip : ∀ l : List Thin_film, canonL l →
    loadData (saveData l) = l.map (fun f => mkLoaded default f.mat f.index)
    ∧ saveData (loadData (saveData l)) = saveData l := by
  intro l hc
  refine ⟨loadData_saveData l hc, ?_⟩
  rw [loadData_saveData l hc, saveData_proj]

/-- Witness for claim C5's amended theorem on the spec's two-record library. -/
theorem C5_roundtrip_witness :
    canonL lib2 ∧ saveData (loadData (saveData lib2)) = saveData lib2 := by
  exact ⟨canonL_lib2, (C5_roundtrip lib2 canonL_lib2).2⟩

/-- Counterexample for claim C5 as stated: a library file whose name line has
leading whitespace parses to the trimmed name, so saving the loaded list is
not byte-identical to the original file. -/
theorem C5_counterexample :
    saveData (loadData "  SiO2\n1.46\n") ≠ "  SiO2\n1.46\n" := by
  have hstr : (⟨[' ', ' '] ++ (renderPairs [("SiO2", ⟨false, ['1'], some ['4', '6']⟩)] ++ [])⟩
      : String) = "  SiO2\n1.46\n" := by
    decide
  have h : loadData "  SiO2\n1.46\n"
      = [mkLoaded default "SiO2" (NumTok.val ⟨false, ['1'], some ['4', '6']⟩)] := by
    rw [← hstr]
    unfold loadData
    exact loadLoop_pairs [("SiO2", ⟨false, ['1'], some ['4', '6']⟩)] _ default [' ', ' '] []
      (by decide) (by decide) (by decide) (by decide)
  rw [h]
  have hrec : mkLoaded default "SiO2" (NumTok.val ⟨false, ['1'], some ['4', '6']⟩)
      = (⟨"SiO2", 0, 1.46, 0⟩ : Thin_film) := by
    unfold mkLoaded NumTok.val
    simp only [Option.getD_some, reduceIte]
    rw [show digitsToNat (['1'] ++ ['4', '6']) = 146 from rfl]
    norm_num [default]
  rw [hrec]
  have hsave : saveData [(⟨"SiO2", 0, 1.46, 0⟩ : Thin_film)] = "SiO2\n1.46\n" := by
    show Thin_film.writeFile ⟨"SiO2", 0, 1.46, 0⟩ ++ "" = _
    unfold Thin_film.writeFile
    rw [show (⟨"SiO2", 0, 1.46, 0⟩ : Thin_film).index = (1.46 : ℚ) from rfl, renderQ_146]
    decide
  rw [hsave]
  decide

/-- Claim C6 (confirmed): for a library of size `N` and a 1-based position
`k` with `1 ≤ k ≤ N`, DELETE yields the list of size `N - 1` with every
element before position `k` unchanged and every element after it shifted
left by one, and rewrites the whole library file from the updated list. -/
theorem C6_delete_shifts : ∀ (l : List Thin_film) (k : ℕ), 1 ≤ k → k ≤ l.length →
    deleteFilm l (k : ℤ)
      = some (l.take (k - 1) ++ l.drop k, saveData (l.take (k - 1) ++ l.drop k))
    ∧ (l.take (k - 1) ++ l.drop k).length = l.length - 1
    ∧ (∀ i, i < k - 1 → (l.take (k - 1) ++ l.drop k)[i]? = l[i]?)
    ∧ (∀ i, k - 1 ≤ i → (l.take (k - 1) ++ l.drop k)[i]? = l[i + 1]?) := by
  intro l k h1 h2
  have htl : (l.take (k - 1)).length = k - 1 := List.length_take_of_le (by omega)
  refine ⟨deleteFilm_eq l k h1 h2, ?_, ?_, ?_⟩
  · rw [List.length_append, htl, List.length_drop]
    omega
  · intro i hi
    rw [List.getElem?_append, htl, if_pos hi, List.getElem?_take]
    simp [show i < k - 1 from hi]
  · intro i hi
    rw [List.getElem?_append, htl, if_neg (by omega), List.getElem?_drop]
    congr 1
    omega

/-- Witness for claim C6 at the spec's two-record library, deleting
position 1. -/
theorem C6_delete_shifts_witness :
    deleteFilm lib2 1 = some ([si3n4], saveData [si3n4]) := by
  have h := (C6_delete_shifts lib2 1 (by norm_num) (by simp [lib2])).1
  simpa [lib2] using h

/-- Claim C9 (confirmed): `loadData` reads records as alternating (name-line,
index-line) pairs until end of input, appending them in file order; any
trailing partial pair (a dangling name line, with or without its newline) is
silently dropped; and when the file cannot be opened the process terminates
with the non-zero status `1` after printing a message. -/
theorem C9_load_semantics :
    (∀ (ps : List (String × NumTok)) (t : List Char), pairsOk ps → tailOk t →
      loadData ⟨renderPairs ps ++ t⟩ = ps.map (fun p => mkLoaded default p.1 p.2.val))
    ∧ loadFile none "films.txt" = .error (1, "File films.txt failed to open.\n")
    ∧ (1 : ℤ) ≠ 0 := by
  refine ⟨loadData_pairs, ?_, by norm_num⟩
  rfl

/-- Witness for claim C9: a canonical one-record file followed by a dangling
partial line loads exactly the complete record. -/
theorem C9_load_semantics_witness :
    pairsOk [("SiO2", ⟨false, ['1'], some ['4', '6']⟩)]
    ∧ tailOk "Partial".data
    ∧ loadData "SiO2\n1.46\nPartial"
      = [{ mat := "SiO2", spectralRange := 0, index := 1.46, numberOfMaxima := 0 }] := by
  refine ⟨by decide, by decide, ?_⟩
  have h := C9_load_semantics.1 [("SiO2", ⟨false, ['1'], some ['4', '6']⟩)] "Partial".data
    (by decide) (by decide)
  have hstr : (⟨renderPairs [("SiO2", ⟨false, ['1'], some ['4', '6']⟩)] ++ "Partial".data⟩
      : String) = "SiO2\n1.46\nPartial" := by
    decide
  rw [hstr] at h
  rw [h]
  simp only [List.map_cons, List.map_nil, List.cons.injEq, and_true]
  unfold mkLoaded NumTok.val
  simp only [Option.getD_some, reduceIte]
  rw [show digitsToNat (['1'] ++ ['4', '6']) = 146 from rfl]
  norm_num [default]

/-- Claim C2 (amended): a CALCULATE step permanently appends a record to the
in-memory list — the library branch pushes a copy of the selected record,
the arbitrary branch pushes the measurement record itself. The library
branch performs no library-file write, but the arbitrary branch (on request)
rewrites the library file from the full list, measurement record included;
and any later rewrite (for example DELETE's) renders whatever the list then
holds, so the appended records do reach the library file. -/
theorem C2_measurement_records : ∀ (l : List Thin_film) (userPos : ℤ) (d m : ℚ) (sm : String),
    (∀ film, getFilm l userPos = some film →
      (calcFromLibrary l userPos d m sm).map CalcOutcome.newList = some (l ++ [film])
      ∧ (calcFromLibrary l userPos d m sm).map CalcOutcome.libraryWrite = some none)
    ∧ (∀ (nm : String) (ix d2 m2 : ℚ),
        (calcArbitrary l nm ix d2 m2 "y" "n").newList
          = l ++ [(default : Thin_film).read nm ix d2 m2]
        ∧ (calcArbitrary l nm ix d2 m2 "y" "n").libraryWrite
          = some (saveData l ++ ((default : Thin_film).read nm ix d2 m2).writeFile)) := by
  intro l userPos d m sm
  constructor
  · intro film h
    unfold calcFromLibrary
    rw [h]
    exact ⟨rfl, rfl⟩
  · intro nm ix d2 m2
    unfold calcArbitrary
    refine ⟨rfl, ?_⟩
    show (if ("y" : String) = "y" then some (saveData (l ++ [(default : Thin_film).read nm ix d2 m2])) else none) = _
    rw [if_pos rfl, saveData_append]

/-- Witness for claim C2's amended theorem: calculating from the spec's
library at position 2 appends the selected record's copy to the list. -/
theorem C2_measurement_records_witness :
    getFilm lib2 2 = some si3n4
    ∧ (calcFromLibrary lib2 2 50 3 "n").map CalcOutcome.newList = some (lib2 ++ [si3n4]) := by
  exact ⟨rfl, ((C2_measurement_records lib2 2 50 3 "n").1 si3n4 rfl).1⟩

/-- Counterexample for claim C2 as stated: after a library-branch CALCULATE
on position 2, the list holds a transient copy of Si3N4; a later DELETE of
position 1 rewrites the library file with that copy still in it, so the file
is not the records present at load (minus the deleted one). -/
theorem C2_counterexample :
    (calcFromLibrary lib2 2 50 3 "n").map CalcOutcome.newList = some (lib2 ++ [si3n4])
    ∧ deleteFilm (lib2 ++ [si3n4]) 1 = some ([si3n4, si3n4], saveData [si3n4, si3n4])
    ∧ saveData [si3n4, si3n4] = "Si3N4\n2.05\nSi3N4\n2.05\n"
    ∧ saveData [si3n4] = "Si3N4\n2.05\n"
    ∧ ("Si3N4\n2.05\nSi3N4\n2.05\n" : String) ≠ "Si3N4\n2.05\n" := by
  refine ⟨rfl, rfl, ?_, ?_, by decide⟩
  · show si3n4.writeFile ++ (si3n4.writeFile ++ "") = _
    unfold Thin_film.writeFile
    rw [show si3n4.index = (2.05 : ℚ) from rfl, show si3n4.mat = "Si3N4" from rfl, renderQ_205]
    decide
  · show si3n4.writeFile ++ "" = _
    unfold Thin_film.writeFile
    rw [show si3n4.index = (2.05 : ℚ) from rfl, show si3n4.mat = "Si3N4" from rfl, renderQ_205]
    decide

/-- Claim C7 (confirmed): ADD appends the new (name, index) record to the
library file only — the previous file content stays as an untouched prefix —
and the in-memory list (hence LIST and CALCULATE) is unchanged; the new
material only appears once the file is reloaded, after which the loaded list
is the old records plus the new one. -/
theorem C7_add_appends_only : ∀ (st : SessionState) (nm : String) (ix : ℚ) (ans : String),
    (menuAdd st nm ix ans).materialList = st.materialList
    ∧ (menuAdd st nm ix ans).logFile = st.logFile
    ∧ (ans = "y" → (menuAdd st nm ix ans).libFile
        = st.libFile ++ nm ++ "\n" ++ renderQ ix ++ "\n")
    ∧ (¬ ans = "y" → (menuAdd st nm ix ans).libFile = st.libFile)
    ∧ (∀ l : List Thin_film, canonL l → nameOk nm → 0 ≤ ix → IsDecimal ix →
        st.libFile = saveData l → ans = "y" →
        loadData (menuAdd st nm ix ans).libFile
          = (l ++ [(⟨nm, 0, ix, 0⟩ : Thin_film)]).map
              (fun f => mkLoaded default f.mat f.index)) := by
  intro st nm ix ans
  refine ⟨rfl, rfl, ?_, ?_, ?_⟩
  · intro h
    show addMaterial st.libFile nm ix ans = _
    unfold addMaterial
    rw [if_pos h]
  · intro h
    show addMaterial st.libFile nm ix ans = _
    unfold addMaterial
    rw [if_neg h]
  · intro l hc hnm hix hdec hlib hans
    show loadData (addMaterial st.libFile nm ix ans) = _
    unfold addMaterial
    rw [if_pos hans, hlib]
    have hdone : saveData l ++ nm ++ "\n" ++ renderQ ix ++ "\n"
        = saveData (l ++ [(⟨nm, 0, ix, 0⟩ : Thin_film)]) := by
      rw [saveData_append]
      show _ = saveData l ++ (nm ++ "\n" ++ renderQ ix ++ "\n")
      simp [String.append_assoc]
    rw [hdone]
    apply loadData_saveData
    intro f hf
    rcases List.mem_append.mp hf with h1 | h1
    · exact hc f h1
    · simp only [List.mem_singleton] at h1
      subst h1
      exact ⟨hnm, hix, hdec⟩

/-- Witness for claim C7 at the spec's library, adding material TiO2. -/
theorem C7_add_appends_only_witness :
    (menuAdd ⟨lib2, saveData lib2, ""⟩ "TiO2" 2.35 "y").materialList = lib2
    ∧ loadData (menuAdd ⟨lib2, saveData lib2, ""⟩ "TiO2" 2.35 "y").libFile
      = lib2 ++ [⟨"TiO2", 0, 2.35, 0⟩] := by
  have h := C7_add_appends_only ⟨lib2, saveData lib2, ""⟩ "TiO2" 2.35 "y"
  refine ⟨h.1, ?_⟩
  have h5 := h.2.2.2.2 lib2 canonL_lib2 (by decide) (by norm_num) isDecimal_235 rfl rfl
  rw [h5]
  rfl

theorem scenario_measured :
    (calcFromLibrary lib2 2 50 3 "n").map CalcOutcome.measured
      = some ⟨"Si3N4", 50, 2.05, 3⟩ := by
  show some ((si3n4.setspectralRange 50).setnumberOfMaxima 3) = _
  unfold Thin_film.setspectralRange Thin_film.setnumberOfMaxima
  rw [if_neg (by norm_num), if_neg (by norm_num)]
  rfl

theorem scenarioThickness_eq : scenarioThickness = some (75 * Real.sqrt 3.2025) := by
  have hm : (si3n4.setspectralRange 50).setnumberOfMaxima 3
      = (⟨"Si3N4", 50, 2.05, 3⟩ : Thin_film) := by
    unfold Thin_film.setspectralRange Thin_film.setnumberOfMaxima
    rw [if_neg (by norm_num), if_neg (by norm_num)]
    rfl
  show Thin_film.getThickness ((si3n4.setspectralRange 50).setnumberOfMaxima 3) = _
  rw [hm]
  unfold Thin_film.getThickness
  rw [if_neg (by norm_num)]
  congr 1
  rw [show ((⟨"Si3N4", 50, 2.05, 3⟩ : Thin_film).index : ℝ)
      * ((⟨"Si3N4", 50, 2.05, 3⟩ : Thin_film).index : ℝ) - 1 = (3.2025 : ℝ) from by
    push_cast
    norm_num]
  rw [show (((⟨"Si3N4", 50, 2.05, 3⟩ : Thin_film).numberOfMaxima : ℝ)
      * ((⟨"Si3N4", 50, 2.05, 3⟩ : Thin_film).spectralRange : ℝ)) / 2 = (75 : ℝ) from by
    push_cast
    norm_num]

/-- Claim C8 (amended): with the library [("SiO2", 1.46), ("Si3N4", 2.05)],
CALCULATE at position 2 with spectralRange 50 and fringeCount 3 displays a
thickness of approximately 134.2 nm — the code's value is 75 · sqrt(3.2025),
which lies strictly between 134.1 and 134.25. -/
theorem C8_scenario_value :
    scenarioThickness ≠ none
    ∧ 134.1 < scenarioThickness.getD 0
    ∧ scenarioThickness.getD 0 < 134.25 := by
  rw [scenarioThickness_eq]
  refine ⟨by simp, ?_, ?_⟩
  · simp only [Option.getD_some]
    nlinarith [sqrt_scenario_lb]
  · simp only [Option.getD_some]
    nlinarith [sqrt_scenario_ub]

/-- Counterexample for claim C8 as stated: the displayed thickness is below
135 nm, so it is not approximately 268.1 nm. -/
theorem C8_counterexample :
    scenarioThickness ≠ none
    ∧ scenarioThickness.getD 0 < 135
    ∧ ¬ (268 ≤ scenarioThickness.getD 0) := by
  rw [scenarioThickness_eq]
  refine ⟨by simp, ?_, ?_⟩
  · simp only [Option.getD_some]
    nlinarith [sqrt_scenario_ub]
  · simp only [Option.getD_some]
    intro h
    nlinarith [sqrt_scenario_ub]
